import Mathlib

/-!
# Verification of `nearby_places_overpass.py`

Shallow embedding of the Overpass-API nearby-places module:

* the transport client `_overpass_post` (retry loop with exponential backoff),
* the result normalizer (`_build_address`, `_extract_center`, `_to_output_record`,
  dedup / sort / truncate in the two search functions),
* the mode dispatcher `search_nearby`,
* the legacy adapter `search_nearby_veterinary_legacy`,
* the haversine distance `_haversine_m` (idealized over the reals).

The HTTP exchange itself is external; it is modelled by an oracle
`Nat → Attempt` giving the outcome of each attempt (for the transport
client), and by the parsed `elements` list (for the search functions).
Sleeping is modelled by recording each slept duration.  Durations are
measured in quarter-seconds as a `Nat`: the source's float backoff
`1.25 * 2^k` is exactly representable in binary floating point, so the
value `5 * 2^k` quarter-seconds models it exactly.
-/

namespace NearbyPlaces

/-! ## Transport client (`_overpass_post`) -/

/-- The possible causes wrapped into the final `RuntimeError`:
an HTTP error raised by `resp.raise_for_status()` or any other
exception raised during an attempt (network failure, timeout, ...),
identified by an abstract code. -/
inductive OverErr where
  | httpError (status : Nat)
  | exc (code : Nat)
deriving DecidableEq

/-- Outcome of one HTTP POST attempt, as decided by the environment:
either a response with a status code and (already-parsed) body, or an
exception raised by `requests.post` itself. -/
inductive Attempt where
  | resp (status : Nat) (body : Nat)
  | raiseExc (code : Nat)
deriving DecidableEq

/-- The transient statuses retried without raising: `(429, 502, 503, 504)`. -/
def transientStatuses : List Nat := [429, 502, 503, 504]

/-- `resp.raise_for_status()` raises an `HTTPError` exactly for
4xx and 5xx status codes. -/
def raisesForStatus (s : Nat) : Bool := decide (400 ≤ s) && decide (s < 600)

/-- An attempt fails (and the loop continues) iff its status is transient,
or `raise_for_status` raises, or the attempt itself raised an exception. -/
def attemptFails : Attempt → Bool
  | .resp s _ => transientStatuses.contains s || raisesForStatus s
  | .raiseExc _ => true

/-- The exception (if any) an attempt contributes to `last_err`:
a transient status sleeps and continues WITHOUT touching `last_err`;
a 4xx/5xx status raises `HTTPError` which the `except` block stores;
any other raised exception is stored. -/
def attemptRaisedError : Attempt → Option OverErr
  | .resp s _ =>
      if transientStatuses.contains s then none
      else if raisesForStatus s then some (.httpError s) else none
  | .raiseExc c => some (.exc c)

/-- The failure cause of a failing attempt in the sense of the spec
("the last underlying failure cause"): a transient status IS a failure
cause here, unlike in `attemptRaisedError`. -/
def attemptFailureCause : Attempt → Option OverErr
  | .resp s _ =>
      if transientStatuses.contains s || raisesForStatus s then some (.httpError s)
      else none
  | .raiseExc c => some (.exc c)

/-- Result of `_overpass_post`: either the parsed body together with the
number of attempts consumed and the sleeps performed (in
quarter-seconds), or the final
`RuntimeError` wrapping `last_err` (which is `none` when no exception
was ever stored). -/
inductive PostResult where
  | success (body : Nat) (attemptsUsed : Nat) (sleeps : List Nat)
  | failure (lastErr : Option OverErr) (attemptsUsed : Nat) (sleeps : List Nat)
deriving DecidableEq

def PostResult.attemptsUsed : PostResult → Nat
  | .success _ n _ => n
  | .failure _ n _ => n

/-- The retry loop of `_overpass_post`, line by line: `i` is the index of
the next attempt, `fuel` the remaining iterations of
`for _ in range(max_retries)`, `backoff` the current sleep duration in
quarter-seconds (starts at `5`, i.e. 1.25 s, and doubles after every
failed attempt), `lastErr` the
stored exception, `sleeps` the accumulated sleeps (most recent first). -/
def overpassPostAux (oracle : Nat → Attempt) :
    Nat → Nat → Nat → Option OverErr → List Nat → PostResult
  | i, 0, _, lastErr, sleeps => .failure lastErr i sleeps.reverse
  | i, fuel + 1, backoff, lastErr, sleeps =>
    match oracle i with
    | .resp s body =>
      if transientStatuses.contains s then
        overpassPostAux oracle (i + 1) fuel (backoff * 2) lastErr (backoff :: sleeps)
      else if raisesForStatus s then
        overpassPostAux oracle (i + 1) fuel (backoff * 2)
          (some (.httpError s)) (backoff :: sleeps)
      else
        .success body (i + 1) sleeps.reverse
    | .raiseExc c =>
        overpassPostAux oracle (i + 1) fuel (backoff * 2) (some (.exc c)) (backoff :: sleeps)

/-- `_overpass_post(query, ..., max_retries)`: run the attempt loop with
initial backoff `1.25` seconds (5 quarter-seconds) and `last_err = None`. -/
def _overpass_post (oracle : Nat → Attempt) (max_retries : Nat) : PostResult :=
  overpassPostAux oracle 0 max_retries 5 none []

/-- The attempts the oracle yields at indices `i, i+1, ..., i+n-1`. -/
def attemptsList (oracle : Nat → Attempt) (i : Nat) : Nat → List Attempt
  | 0 => []
  | n + 1 => oracle i :: attemptsList oracle (i + 1) n

/-- Fold the `last_err` update over a run of attempts: a raised error
replaces the current value, otherwise the current value is kept. -/
def foldErr (cur : Option OverErr) : List Attempt → Option OverErr
  | [] => cur
  | a :: rest => foldErr ((attemptRaisedError a).or cur) rest

/-- The exception stored in `last_err` after `n` all-failing attempts. -/
def lastRaisedError (oracle : Nat → Attempt) (n : Nat) : Option OverErr :=
  foldErr none (attemptsList oracle 0 n)

/-- The sleep durations (in quarter-seconds) of `n` consecutive failed
attempts starting from backoff `b`: `b, 2b, 4b, ...`. -/
def backoffList (b : Nat) : Nat → List Nat
  | 0 => []
  | n + 1 => b :: backoffList (b * 2) n

/-- The body carried by a successful response attempt. -/
def respBody : Attempt → Nat
  | .resp _ b => b
  | .raiseExc _ => 0

/-- A concrete environment: attempt 0 raises an exception (code 7),
every later attempt returns HTTP 503 (a transient status). -/
def oracleCex : Nat → Attempt := fun i => if i = 0 then .raiseExc 7 else .resp 503 0

/-- A concrete environment: the first two attempts return HTTP 503,
then the endpoint recovers and returns HTTP 200 with body 42. -/
def oracleRecover : Nat → Attempt := fun i => if i < 2 then .resp 503 0 else .resp 200 42

/-! ## Result normalizer -/

/-- A JSON-ish value stored under a key of an output record. -/
inductive Value where
  | str (s : String)
  | int (n : Int)
  | null
deriving DecidableEq

/-- The `tags` mapping of an element: free-form string keys to string
values (a Python dict, so keys are unique; lookup takes the first
match). -/
abbrev Tags := List (String × String)

/-- `tags.get(k)` when used in a truthiness test: present AND non-empty
(the empty string is falsy in Python). -/
def tagGetTruthy (tags : Tags) (k : String) : Option String :=
  match tags.lookup k with
  | some v => if v = "" then none else some v
  | none => none

/-- Python `s.strip()`: drop whitespace from both ends (executable on
the logical `List Char` representation so the kernel can evaluate it). -/
def pyStrip (s : String) : String :=
  ⟨((s.data.dropWhile Char.isWhitespace).reverse.dropWhile Char.isWhitespace).reverse⟩

/-- Python `s.lower()` (ASCII, like the mode strings it is applied to). -/
def pyLower (s : String) : String := ⟨s.data.map Char.toLower⟩

/-- Python `" ".join(parts)`. -/
def pyJoinSpace : List String → String
  | [] => ""
  | [s] => s
  | s :: rest => ⟨s.data ++ ' ' :: (pyJoinSpace rest).data⟩

/-- Python `s or None` for a string `s`. -/
def strOrNone (s : String) : Option String :=
  if s = "" then none else some s

/-- The fixed field order of the part-wise address. -/
def addrKeys : List String :=
  ["addr:housenumber", "addr:street", "addr:district", "addr:city", "addr:postcode"]

/-- `_build_address(tags)`: best-effort address formatter.  Prefer a
non-empty `addr:full` (stripped, empty → None); otherwise join the
present `addrKeys` values with spaces; if none present fall back to
`contact:address`; strip, empty → None. -/
def _build_address (tags : Tags) : Option String :=
  if tags = [] then none
  else
    match tagGetTruthy tags "addr:full" with
    | some v => strOrNone (pyStrip v)
    | none =>
      let parts := addrKeys.filterMap (fun k => tagGetTruthy tags k)
      let parts :=
        if parts = [] then
          match tagGetTruthy tags "contact:address" with
          | some v => [v]
          | none => []
        else parts
      strOrNone (pyStrip (pyJoinSpace parts))

/-- A raw Overpass element: optional direct `lat`/`lon` fields, an
optional `center` pair (both coordinates present and non-null), and an
optional `tags` dict.  Coordinates are rationals (exact stand-ins for
the JSON numerals). -/
structure Element where
  lat : Option ℚ
  lon : Option ℚ
  center : Option (ℚ × ℚ)
  tags : Option Tags
deriving DecidableEq

/-- `_extract_center(el)`: the direct `(lat, lon)` pair when both keys
are present, else the nested `center` pair, else `None`. -/
def _extract_center (el : Element) : Option (ℚ × ℚ) :=
  match el.lat, el.lon with
  | some la, some lo => some (la, lo)
  | _, _ => el.center

/-- `el.get("tags") or {}`. -/
def elTags (el : Element) : Tags := el.tags.getD []

/-- `tags.get("name") or None`. -/
def elName (el : Element) : Option String := tagGetTruthy (elTags el) "name"

/-- An output record: an ordered key/value dict. -/
abbrev Rec := List (String × Value)

def optStrVal : Option String → Value
  | some s => .str s
  | none => .null

/-- `_to_output_record(name, address, distance_m)`: the fixed 4-key
output dict, with `rating` hardcoded to `None`. -/
def _to_output_record (name address : Option String) (distance_m : Int) : Rec :=
  [("name", optStrVal name), ("address", optStrVal address),
   ("rating", Value.null), ("distance_m", Value.int distance_m)]

/-- The key list of a record. -/
def recKeys (r : Rec) : List String := r.map Prod.fst

/-- `x["distance_m"]`, as used by the sort key. -/
def recDist (r : Rec) : Int :=
  match r.lookup "distance_m" with
  | some (.int n) => n
  | _ => 0

/-- The dedup key of a record, recovered from its fields:
`(name or "", address or "")`. -/
def specKey (r : Rec) : String × String :=
  ((match r.lookup "name" with | some (.str s) => s | _ => ""),
   (match r.lookup "address" with | some (.str s) => s | _ => ""))

/-- The rounded haversine distance `round(_haversine_m(lat, lon, plat,
plon))` as an oracle: its transcendental floating-point computation is
external to this embedding. -/
abbrev DistFn := ℚ → ℚ → ℚ → ℚ → Int

/-- The record built from one element of the response (`None` when the
element has no usable coordinate and the loop `continue`s). -/
def elementRecord (d : DistFn) (latitude longitude : ℚ) (el : Element) : Option Rec :=
  match _extract_center el with
  | none => none
  | some (plat, plon) =>
    some (_to_output_record (elName el) (_build_address (elTags el))
      (d latitude longitude plat plon))

/-- The per-element record list of the veterinary loop (no dedup). -/
def rawRecords (d : DistFn) (latitude longitude : ℚ) (elements : List Element) : List Rec :=
  elements.filterMap (elementRecord d latitude longitude)

/-- `records.sort(key=lambda x: x["distance_m"])`: a stable sort on the
`distance_m` field (insertion sort is stable, like Python's sort). -/
def sortByDist (l : List Rec) : List Rec :=
  List.insertionSort (fun a b => recDist a ≤ recDist b) l

/-- `records[: max(0, int(top_n))]`. -/
def truncTop (top_n : Int) (l : List Rec) : List Rec :=
  l.take (max 0 top_n).toNat

/-- `search_nearby_veterinary(latitude, longitude, radius_m, top_n)`.
`radius_m` only parameterizes the Overpass query string; the reply to
that query is abstracted by `elements`, and `d` stands for the rounded
haversine distance. -/
def search_nearby_veterinary (d : DistFn) (latitude longitude : ℚ)
    (radius_m top_n : Int) (elements : List Element) : List Rec :=
  let _ := radius_m
  truncTop top_n (sortByDist (rawRecords d latitude longitude elements))

/-- The element loop of `search_nearby_pet_friendly_food`, carrying the
`seen` set of `(name or "", address or "")` keys: an element whose key
was already seen is skipped (`continue`), otherwise its key is added and
its record emitted. -/
def foodLoop (d : DistFn) (latitude longitude : ℚ) :
    List Element → List (String × String) → List Rec
  | [], _ => []
  | el :: rest, seen =>
    match _extract_center el with
    | none => foodLoop d latitude longitude rest seen
    | some (plat, plon) =>
      let name := elName el
      let address := _build_address (elTags el)
      let key := (name.getD "", address.getD "")
      if key ∈ seen then foodLoop d latitude longitude rest seen
      else
        _to_output_record name address (d latitude longitude plat plon) ::
          foodLoop d latitude longitude rest (key :: seen)

/-- The deduplicated record list of the food loop (before sorting). -/
def foodRecords (d : DistFn) (latitude longitude : ℚ) (elements : List Element) : List Rec :=
  foodLoop d latitude longitude elements []

/-- `search_nearby_pet_friendly_food(latitude, longitude, radius_m,
top_n, strict)`.  `radius_m` and `strict` only parameterize the Overpass
query string (strict mode adds the dog/pets tag filters); the reply is
abstracted by `elements`. -/
def search_nearby_pet_friendly_food (d : DistFn) (latitude longitude : ℚ)
    (radius_m top_n : Int) (strict : Bool) (elements : List Element) : List Rec :=
  let _ := radius_m
  let _ := strict
  truncTop top_n (sortByDist (foodRecords d latitude longitude elements))

/-- The spec's deduplication, stated in its own words: the first
occurrence of each `(name, address)` key wins, every later record with
the same key is dropped. -/
def keepFirstByKey (k : Rec → String × String) : List Rec → List Rec
  | [] => []
  | r :: rest => r :: (keepFirstByKey k rest).filter (fun r2 => k r2 ≠ k r)

/-! ## Mode dispatcher and legacy adapter -/

/-- The error of `search_nearby`: the `ValueError("mode must be
...")` raised for an unrecognized mode. -/
inductive SearchError where
  | invalidMode
deriving DecidableEq

/-- The undocumented aliases accepted for the food search. -/
def foodModes : List String := ["pet_friendly_food", "pet_food", "food"]

/-- `search_nearby(latitude, longitude, radius_m, top_n, mode, **kwargs)`:
normalize `mode` by `(mode or "").strip().lower()`, dispatch to the
category function, raise `ValueError` otherwise.  A `None` mode is
modelled by `none`. -/
def search_nearby (d : DistFn) (latitude longitude : ℚ) (radius_m top_n : Int)
    (strict : Bool) (mode : Option String) (elements : List Element) :
    Except SearchError (List Rec) :=
  let m := pyLower (pyStrip (mode.getD ""))
  if m = "veterinary" then
    .ok (search_nearby_veterinary d latitude longitude radius_m top_n elements)
  else if m ∈ foodModes then
    .ok (search_nearby_pet_friendly_food d latitude longitude radius_m top_n strict elements)
  else
    .error .invalidMode

/-- `search_nearby_veterinary_legacy(api_key, latitude, longitude,
radius, language, top_n)`: discards `api_key` and `language` and
forwards to `search_nearby_veterinary` with `radius_m=radius`,
`top_n=top_n`. -/
def search_nearby_veterinary_legacy (api_key : Option String) (d : DistFn)
    (latitude longitude : ℚ) (radius : Int) (language : Option String)
    (top_n : Int) (elements : List Element) : List Rec :=
  let _ := (api_key, language)
  search_nearby_veterinary d latitude longitude radius top_n elements

/-! ## Haversine distance (idealized over the reals) -/

/-- `_haversine_m(lat1, lon1, lat2, lon2)`: great-circle distance in
meters, Earth radius 6371000, `math.radians(x) = x * π / 180`. -/
noncomputable def _haversine_m (lat1 lon1 lat2 lon2 : ℝ) : ℝ :=
  let r : ℝ := 6371000
  let p1 := lat1 * Real.pi / 180
  let p2 := lat2 * Real.pi / 180
  let dp := (lat2 - lat1) * Real.pi / 180
  let dl := (lon2 - lon1) * Real.pi / 180
  let a := Real.sin (dp / 2) ^ 2 + Real.cos p1 * Real.cos p2 * Real.sin (dl / 2) ^ 2
  2 * r * Real.arcsin (Real.sqrt a)

/-! ## Concrete inputs for witnesses -/

/-- A trivial distance oracle. -/
def d0 : DistFn := fun _ _ _ _ => 0

/-- A distance oracle depending on the target point, to exercise the
sort. -/
def d1 : DistFn := fun _ _ plat _ => plat.num

/-- A node element named A at (1, 2). -/
def el0 : Element :=
  { lat := some 1, lon := some 2, center := none, tags := some [("name", "A")] }

/-- A way element, also named A (duplicate key of `el0`), with a center. -/
def el1 : Element :=
  { lat := none, lon := none, center := some (3, 4), tags := some [("name", "A")] }

/-- A node element named B at (5, 6). -/
def el2 : Element :=
  { lat := some 5, lon := some 6, center := none, tags := some [("name", "B")] }

end NearbyPlaces

namespace NearbyPlaces

theorem backoffList_eq (n : Nat) :
    ∀ b, backoffList b n = (List.range n).map (fun i => b * 2 ^ i) := by
  induction n with
  | zero => intro b; simp [backoffList]
  | succ n ih =>
    intro b
    rw [List.range_succ_eq_map]
    simp only [List.map_cons, List.map_map]
    rw [backoffList, ih (b * 2)]
    simp only [pow_zero, Nat.mul_one]
    congr 1
    apply List.map_congr_left
    intro i _
    simp [Function.comp, pow_succ]
    ring

theorem overpassPostAux_all_fail (oracle : Nat → Attempt) (fuel : Nat) :
    ∀ (i backoff : Nat) (lastErr : Option OverErr) (sleeps : List Nat),
      (∀ j, j < fuel → attemptFails (oracle (i + j)) = true) →
      overpassPostAux oracle i fuel backoff lastErr sleeps =
        .failure (foldErr lastErr (attemptsList oracle i fuel)) (i + fuel)
          (sleeps.reverse ++ backoffList backoff fuel) := by
  induction fuel with
  | zero =>
    intro i backoff lastErr sleeps _
    simp [overpassPostAux, attemptsList, foldErr, backoffList]
  | succ fuel ih =>
    intro i backoff lastErr sleeps h
    have h0 : attemptFails (oracle i) = true := by simpa using h 0 (Nat.succ_pos _)
    have hrest : ∀ j, j < fuel → attemptFails (oracle (i + 1 + j)) = true := by
      intro j hj
      have e : i + 1 + j = i + (j + 1) := by omega
      rw [e]; exact h (j + 1) (by omega)
    have eIdx : i + 1 + fuel = i + (fuel + 1) := by omega
    cases hatt : oracle i with
    | resp s body =>
      by_cases hc : transientStatuses.contains s = true
      · have hcm : s ∈ transientStatuses := by simpa using hc
        simp only [overpassPostAux, hatt, hc, if_true]
        rw [ih (i + 1) (backoff * 2) lastErr (backoff :: sleeps) hrest]
        simp [attemptsList, foldErr, attemptRaisedError, hatt, hcm, backoffList,
          List.reverse_cons, List.append_assoc, eIdx, Option.or]
      · have hcm : s ∉ transientStatuses := by simpa using hc
        have hr : raisesForStatus s = true := by
          rw [hatt] at h0
          simp only [attemptFails, Bool.or_eq_true] at h0
          exact h0.resolve_left hc
        simp only [overpassPostAux, hatt, hc, hr, if_true, if_false, Bool.false_eq_true]
        rw [ih (i + 1) (backoff * 2) (some (.httpError s)) (backoff :: sleeps) hrest]
        simp [attemptsList, foldErr, attemptRaisedError, hatt, hcm, hr, backoffList,
          List.reverse_cons, List.append_assoc, eIdx, Option.or]
    | raiseExc c =>
      simp only [overpassPostAux, hatt]
      rw [ih (i + 1) (backoff * 2) (some (.exc c)) (backoff :: sleeps) hrest]
      simp [attemptsList, foldErr, attemptRaisedError, hatt, backoffList,
        List.reverse_cons, List.append_assoc, eIdx, Option.or]

theorem overpassPostAux_attemptsUsed_ge (oracle : Nat → Attempt) (fuel : Nat) :
    ∀ (i backoff : Nat) (lastErr : Option OverErr) (sleeps : List Nat),
      i ≤ (overpassPostAux oracle i fuel backoff lastErr sleeps).attemptsUsed := by
  induction fuel with
  | zero =>
    intro i backoff lastErr sleeps
    simp [overpassPostAux, PostResult.attemptsUsed]
  | succ fuel ih =>
    intro i backoff lastErr sleeps
    cases hatt : oracle i with
    | resp s body =>
      simp only [overpassPostAux, hatt]
      by_cases hc : transientStatuses.contains s = true
      · simp only [hc, if_true]
        exact Nat.le_of_succ_le (ih (i + 1) (backoff * 2) lastErr (backoff :: sleeps))
      · by_cases hr : raisesForStatus s = true
        · simp only [hc, hr, if_true, if_false, Bool.false_eq_true]
          exact Nat.le_of_succ_le (ih (i + 1) (backoff * 2) _ (backoff :: sleeps))
        · simp only [hc, hr, if_false, Bool.false_eq_true]
          simp [PostResult.attemptsUsed]
    | raiseExc c =>
      simp only [overpassPostAux, hatt]
      exact Nat.le_of_succ_le (ih (i + 1) (backoff * 2) _ (backoff :: sleeps))

theorem overpassPostAux_attemptsUsed_ge_succ (oracle : Nat → Attempt) (fuel : Nat)
    (hfuel : 0 < fuel) :
    ∀ (i backoff : Nat) (lastErr : Option OverErr) (sleeps : List Nat),
      i + 1 ≤ (overpassPostAux oracle i fuel backoff lastErr sleeps).attemptsUsed := by
  cases fuel with
  | zero => omega
  | succ fuel =>
    intro i backoff lastErr sleeps
    cases hatt : oracle i with
    | resp s body =>
      simp only [overpassPostAux, hatt]
      by_cases hc : transientStatuses.contains s = true
      · simp only [hc, if_true]
        exact overpassPostAux_attemptsUsed_ge oracle fuel (i + 1) _ _ _
      · by_cases hr : raisesForStatus s = true
        · simp only [hc, hr, if_true, if_false, Bool.false_eq_true]
          exact overpassPostAux_attemptsUsed_ge oracle fuel (i + 1) _ _ _
        · simp only [hc, hr, if_false, Bool.false_eq_true]
          simp [PostResult.attemptsUsed]
    | raiseExc c =>
      simp only [overpassPostAux, hatt]
      exact overpassPostAux_attemptsUsed_ge oracle fuel (i + 1) _ _ _

theorem overpassPostAux_retries (oracle : Nat → Attempt) (k : Nat) :
    ∀ (i fuel backoff : Nat) (lastErr : Option OverErr) (sleeps : List Nat),
      k + 1 < fuel →
      (∀ j, j ≤ k → attemptFails (oracle (i + j)) = true) →
      i + k + 2 ≤ (overpassPostAux oracle i fuel backoff lastErr sleeps).attemptsUsed := by
  induction k with
  | zero =>
    intro i fuel backoff lastErr sleeps hlt h
    cases fuel with
    | zero => omega
    | succ fuel =>
      have hfuel : 0 < fuel := by omega
      have h0 : attemptFails (oracle i) = true := by simpa using h 0 (Nat.le_refl _)
      cases hatt : oracle i with
      | resp s body =>
        simp only [overpassPostAux, hatt]
        by_cases hc : transientStatuses.contains s = true
        · simp only [hc, if_true]
          have := overpassPostAux_attemptsUsed_ge_succ oracle fuel hfuel (i + 1)
            (backoff * 2) lastErr (backoff :: sleeps)
          omega
        · have hr : raisesForStatus s = true := by
            rw [hatt] at h0
            simp only [attemptFails, Bool.or_eq_true] at h0
            exact h0.resolve_left hc
          simp only [hc, hr, if_true, if_false, Bool.false_eq_true]
          have := overpassPostAux_attemptsUsed_ge_succ oracle fuel hfuel (i + 1)
            (backoff * 2) (some (.httpError s)) (backoff :: sleeps)
          omega
      | raiseExc c =>
        simp only [overpassPostAux, hatt]
        have := overpassPostAux_attemptsUsed_ge_succ oracle fuel hfuel (i + 1)
          (backoff * 2) (some (.exc c)) (backoff :: sleeps)
        omega
  | succ k ih =>
    intro i fuel backoff lastErr sleeps hlt h
    cases fuel with
    | zero => omega
    | succ fuel =>
      have h0 : attemptFails (oracle i) = true := by simpa using h 0 (Nat.zero_le _)
      have hrest : ∀ j, j ≤ k → attemptFails (oracle (i + 1 + j)) = true := by
        intro j hj
        have e : i + 1 + j = i + (j + 1) := by omega
        rw [e]; exact h (j + 1) (by omega)
      have hlt2 : k + 1 < fuel := by omega
      cases hatt : oracle i with
      | resp s body =>
        simp only [overpassPostAux, hatt]
        by_cases hc : transientStatuses.contains s = true
        · simp only [hc, if_true]
          have := ih (i + 1) fuel (backoff * 2) lastErr (backoff :: sleeps) hlt2 hrest
          omega
        · have hr : raisesForStatus s = true := by
            rw [hatt] at h0
            simp only [attemptFails, Bool.or_eq_true] at h0
            exact h0.resolve_left hc
          simp only [hc, hr, if_true, if_false, Bool.false_eq_true]
          have := ih (i + 1) fuel (backoff * 2) (some (.httpError s))
            (backoff :: sleeps) hlt2 hrest
          omega
      | raiseExc c =>
        simp only [overpassPostAux, hatt]
        have := ih (i + 1) fuel (backoff * 2) (some (.exc c))
          (backoff :: sleeps) hlt2 hrest
        omega

theorem overpassPostAux_fail_then_success (oracle : Nat → Attempt) (N : Nat) :
    ∀ (i fuel backoff : Nat) (lastErr : Option OverErr) (sleeps : List Nat),
      N < fuel →
      (∀ j, j < N → attemptFails (oracle (i + j)) = true) →
      attemptFails (oracle (i + N)) = false →
      overpassPostAux oracle i fuel backoff lastErr sleeps =
        .success (respBody (oracle (i + N))) (i + N + 1)
          (sleeps.reverse ++ backoffList backoff N) := by
  induction N with
  | zero =>
    intro i fuel backoff lastErr sleeps hlt _ hsucc
    cases fuel with
    | zero => omega
    | succ fuel =>
      simp only [Nat.add_zero] at hsucc ⊢
      cases hatt : oracle i with
      | resp s body =>
        rw [hatt] at hsucc
        simp only [attemptFails, Bool.or_eq_false_iff] at hsucc
        obtain ⟨hc, hr⟩ := hsucc
        simp only [overpassPostAux, hatt, hc, hr, if_false, Bool.false_eq_true]
        simp [respBody, hatt, backoffList]
      | raiseExc c =>
        rw [hatt] at hsucc
        simp [attemptFails] at hsucc
  | succ N ih =>
    intro i fuel backoff lastErr sleeps hlt hfail hsucc
    cases fuel with
    | zero => omega
    | succ fuel =>
      have h0 : attemptFails (oracle i) = true := by simpa using hfail 0 (Nat.succ_pos _)
      have hrest : ∀ j, j < N → attemptFails (oracle (i + 1 + j)) = true := by
        intro j hj
        have e : i + 1 + j = i + (j + 1) := by omega
        rw [e]; exact hfail (j + 1) (by omega)
      have eIdx : i + 1 + N = i + (N + 1) := by omega
      have hsucc2 : attemptFails (oracle (i + 1 + N)) = false := by
        rw [eIdx]; exact hsucc
      have hlt2 : N < fuel := by omega
      cases hatt : oracle i with
      | resp s body =>
        by_cases hc : transientStatuses.contains s = true
        · simp only [overpassPostAux, hatt, hc, if_true]
          rw [ih (i + 1) fuel (backoff * 2) lastErr (backoff :: sleeps) hlt2 hrest hsucc2]
          simp [backoffList, List.reverse_cons, List.append_assoc, eIdx]
        · have hr : raisesForStatus s = true := by
            rw [hatt] at h0
            simp only [attemptFails, Bool.or_eq_true] at h0
            exact h0.resolve_left hc
          simp only [overpassPostAux, hatt, hc, hr, if_true, if_false, Bool.false_eq_true]
          rw [ih (i + 1) fuel (backoff * 2) (some (.httpError s)) (backoff :: sleeps)
            hlt2 hrest hsucc2]
          simp [backoffList, List.reverse_cons, List.append_assoc, eIdx]
      | raiseExc c =>
        simp only [overpassPostAux, hatt]
        rw [ih (i + 1) fuel (backoff * 2) (some (.exc c)) (backoff :: sleeps)
          hlt2 hrest hsucc2]
        simp [backoffList, List.reverse_cons, List.append_assoc, eIdx]

end NearbyPlaces

namespace NearbyPlaces

/-- **C1** (counterexample to the claim as stated).  The claim says the
final `TransportError` wraps the last underlying failure cause.  In the
environment `oracleCex` (attempt 0 raises exception 7, attempt 1 fails
with the transient status 503) with `max_retries = 2`, every attempt
fails, the failure cause of the last attempt is the 503 HTTP error, yet
the final error wraps the exception of attempt 0: a transient status
never updates `last_err`. -/
theorem overpass_post_wraps_cause_cex :
    (∀ i, i < 2 → attemptFails (oracleCex i) = true) ∧
    attemptFailureCause (oracleCex 1) = some (.httpError 503) ∧
    _overpass_post oracleCex 2 = .failure (some (.exc 7)) 2 [5, 10] ∧
    _overpass_post oracleCex 2 ≠
      .failure (attemptFailureCause (oracleCex 1)) 2 [5, 10] := by
  decide

/-- **C1** (amended).  If every one of the `max_retries` attempts fails
(whether by a transient HTTP status or by a raised exception), the
client makes exactly `max_retries` attempts, sleeps the full doubling
backoff schedule, and then fails with a `RuntimeError` wrapping the last
exception raised during the attempts — transient-status failures do not
update the wrapped cause, which is therefore `none` when every failure
was a transient status. -/
theorem overpass_post_exhaustion (oracle : Nat → Attempt) (max_retries : Nat)
    (h : ∀ i, i < max_retries → attemptFails (oracle i) = true) :
    _overpass_post oracle max_retries =
      .failure (lastRaisedError oracle max_retries) max_retries
        (backoffList 5 max_retries) := by
  unfold _overpass_post lastRaisedError
  rw [overpassPostAux_all_fail oracle max_retries 0 5 none [] (by simpa using h)]
  simp

/-- **C1** witness: in the always-failing environment `oracleCex` with
`max_retries = 3`, the amended theorem applies and the result evaluates
to a failure wrapping exception 7 after exactly 3 attempts. -/
theorem overpass_post_exhaustion_witness :
    _overpass_post oracleCex 3 = .failure (some (.exc 7)) 3 [5, 10, 20] :=
  (overpass_post_exhaustion oracleCex 3 (by decide)).trans (by decide)

/-- **C2**.  Every failing attempt of a non-final attempt slot is
followed by another attempt: transient statuses (429/502/503/504) are
retried, and every raised exception — including the `HTTPError` raised
for non-transient 4xx/5xx statuses — is caught and retried rather than
aborting the loop.  `attemptFails` covers exactly these failure modes,
and if attempts `0..k` all fail with `k + 1 < max_retries`, then at
least `k + 2` attempts are made. -/
theorem overpass_post_retries_every_failure (oracle : Nat → Attempt)
    (max_retries k : Nat) (hk : k + 1 < max_retries)
    (h : ∀ j, j ≤ k → attemptFails (oracle j) = true) :
    k + 2 ≤ (_overpass_post oracle max_retries).attemptsUsed := by
  have := overpassPostAux_retries oracle k 0 max_retries 5 none [] hk (by simpa using h)
  simpa using this

/-- **C2** witness: in `oracleCex` (an exception, then transient 503s)
with `max_retries = 3`, attempts 0 and 1 fail, so at least 3 attempts
are made. -/
theorem overpass_post_retries_every_failure_witness :
    1 + 2 ≤ (_overpass_post oracleCex 3).attemptsUsed :=
  overpass_post_retries_every_failure oracleCex 3 1 (by decide) (by decide)

/-- **C3**.  If the first `N` attempts fail (`N < max_retries`) and
attempt `N` succeeds, the client returns the parsed body of attempt `N`
after `N + 1 ≤ max_retries` attempts, and the sleep inserted between
attempt `i` and attempt `i + 1` (1-indexed, `i = 1..N`) is
`5 * 2 ^ (i - 1)` quarter-seconds, i.e. `1.25 * 2 ^ (i - 1)` seconds:
the backoff starts at 1.25 s and doubles after every attempt, with no
cap. -/
theorem overpass_post_retry_backoff (oracle : Nat → Attempt) (N max_retries : Nat)
    (hN : N < max_retries)
    (hfail : ∀ i, i < N → attemptFails (oracle i) = true)
    (hsucc : attemptFails (oracle N) = false) :
    _overpass_post oracle max_retries =
      .success (respBody (oracle N)) (N + 1)
        ((List.range N).map (fun i => 5 * 2 ^ i)) := by
  unfold _overpass_post
  rw [overpassPostAux_fail_then_success oracle N 0 max_retries 5 none [] hN
    (by simpa using hfail) (by simpa using hsucc)]
  simp [backoffList_eq]

/-- **C3** witness: with two transient 503 failures and then a 200
response with body 42, the client succeeds on attempt 3 of 6, having
slept 1.25 s and then 2.5 s (5 and 10 quarter-seconds). -/
theorem overpass_post_retry_backoff_witness :
    _overpass_post oracleRecover 6 = .success 42 3 [5, 10] :=
  (overpass_post_retry_backoff oracleRecover 2 6 (by decide) (by decide)
    (by decide)).trans (by decide)

end NearbyPlaces

namespace NearbyPlaces

/-! ## Normalizer lemmas -/

theorem specKey_to_output (n a : Option String) (dd : Int) :
    specKey (_to_output_record n a dd) = (n.getD "", a.getD "") := by
  cases n <;> cases a <;> rfl

theorem recKeys_to_output (n a : Option String) (dd : Int) :
    recKeys (_to_output_record n a dd) = ["name", "address", "rating", "distance_m"] := rfl

theorem lookup_rating_to_output (n a : Option String) (dd : Int) :
    (_to_output_record n a dd).lookup "rating" = some Value.null := rfl

theorem elementRecord_none (d : DistFn) (latitude longitude : ℚ) (el : Element)
    (hext : _extract_center el = none) :
    elementRecord d latitude longitude el = none := by
  rw [elementRecord, hext]

theorem elementRecord_some (d : DistFn) (latitude longitude : ℚ) (el : Element)
    (plat plon : ℚ) (hext : _extract_center el = some (plat, plon)) :
    elementRecord d latitude longitude el =
      some (_to_output_record (elName el) (_build_address (elTags el))
        (d latitude longitude plat plon)) := by
  rw [elementRecord, hext]

theorem keepFirstByKey_sublist (k : Rec → String × String) :
    ∀ l : List Rec, List.Sublist (keepFirstByKey k l) l := by
  intro l
  induction l with
  | nil => simp [keepFirstByKey]
  | cons r rest ih =>
    rw [keepFirstByKey]
    exact ((List.filter_sublist _).trans ih).cons₂ r

theorem keepFirstByKey_pairwise (k : Rec → String × String) :
    ∀ l : List Rec, List.Pairwise (fun a b => k a ≠ k b) (keepFirstByKey k l) := by
  intro l
  induction l with
  | nil => simp [keepFirstByKey]
  | cons r rest ih =>
    rw [keepFirstByKey]
    refine List.Pairwise.cons ?_ (ih.filter _)
    intro b hb
    have := List.of_mem_filter hb
    simp only [decide_eq_true_eq] at this
    exact fun h => this (h ▸ rfl)

theorem foodLoop_eq (d : DistFn) (latitude longitude : ℚ) :
    ∀ (elements : List Element) (seen : List (String × String)),
      foodLoop d latitude longitude elements seen =
        (keepFirstByKey specKey (rawRecords d latitude longitude elements)).filter
          (fun r => decide (specKey r ∉ seen)) := by
  intro elements
  induction elements with
  | nil => intro seen; simp [foodLoop, rawRecords, keepFirstByKey]
  | cons el rest ih =>
    intro seen
    cases hext : _extract_center el with
    | none =>
      have hrec := elementRecord_none d latitude longitude el hext
      rw [foodLoop, hext]
      simp only [rawRecords, List.filterMap_cons, hrec]
      exact ih seen
    | some c =>
      obtain ⟨plat, plon⟩ := c
      have hrec := elementRecord_some d latitude longitude el plat plon hext
      have hkey : specKey (_to_output_record (elName el) (_build_address (elTags el))
          (d latitude longitude plat plon)) =
          ((elName el).getD "", (_build_address (elTags el)).getD "") :=
        specKey_to_output _ _ _
      rw [foodLoop, hext]
      simp only [rawRecords, List.filterMap_cons, hrec]
      rw [keepFirstByKey, List.filter_cons]
      by_cases hseen : ((elName el).getD "", (_build_address (elTags el)).getD "") ∈ seen
      · rw [if_pos hseen]
        have hdec : decide (specKey (_to_output_record (elName el)
            (_build_address (elTags el)) (d latitude longitude plat plon)) ∉ seen) = false := by
          simp [hkey, hseen]
        rw [hdec]
        simp only [Bool.false_eq_true, if_false]
        rw [ih seen, List.filter_filter]
        apply List.filter_congr
        intro x _
        by_cases hx : specKey x ∈ seen
        · simp [hx]
        · have hxk : specKey x ≠ ((elName el).getD "", (_build_address (elTags el)).getD "") :=
            fun h => hx (h ▸ hseen)
          simp [hx, hkey, hxk]
      · rw [if_neg hseen]
        have hdec : decide (specKey (_to_output_record (elName el)
            (_build_address (elTags el)) (d latitude longitude plat plon)) ∉ seen) = true := by
          simp [hkey, hseen]
        rw [hdec]
        simp only [if_true]
        rw [ih (((elName el).getD "", (_build_address (elTags el)).getD "") :: seen)]
        rw [List.filter_filter]
        congr 1
        apply List.filter_congr
        intro x _
        by_cases hx : specKey x ∈ seen
        · have hxc : specKey x ∈ ((elName el).getD "", (_build_address (elTags el)).getD "") ::
              seen := List.mem_cons_of_mem _ hx
          simp [hx, hxc, hkey]
        · by_cases hxk :
            specKey x = ((elName el).getD "", (_build_address (elTags el)).getD "")
          · simp [hxk, hkey]
          · have hxc : specKey x ∉ ((elName el).getD "", (_build_address (elTags el)).getD "") ::
                seen := by simp [List.mem_cons, hx, hxk]
            simp [hxc, hx, hkey, hxk]

theorem foodRecords_eq (d : DistFn) (latitude longitude : ℚ) (elements : List Element) :
    foodRecords d latitude longitude elements =
      keepFirstByKey specKey (rawRecords d latitude longitude elements) := by
  rw [foodRecords, foodLoop_eq]
  apply List.filter_eq_self.mpr
  intro a _
  simp

theorem sortByDist_sorted (l : List Rec) :
    List.Sorted (fun a b => recDist a ≤ recDist b) (sortByDist l) := by
  haveI : IsTotal Rec (fun a b => recDist a ≤ recDist b) := ⟨fun a b => Int.le_total _ _⟩
  haveI : IsTrans Rec (fun a b => recDist a ≤ recDist b) :=
    ⟨fun _ _ _ h1 h2 => Int.le_trans h1 h2⟩
  exact List.sorted_insertionSort _ _

theorem mem_truncTop_sortByDist {r : Rec} {l : List Rec} {top_n : Int}
    (h : r ∈ truncTop top_n (sortByDist l)) : r ∈ l := by
  have h2 := List.take_subset _ _ h
  rwa [sortByDist, List.mem_insertionSort] at h2

theorem mem_rawRecords_shape (d : DistFn) (latitude longitude : ℚ)
    (elements : List Element) {r : Rec}
    (h : r ∈ rawRecords d latitude longitude elements) :
    ∃ n a dd, r = _to_output_record n a dd := by
  rw [rawRecords, List.mem_filterMap] at h
  obtain ⟨el, _, hel⟩ := h
  cases hext : _extract_center el with
  | none => rw [elementRecord_none d latitude longitude el hext] at hel; cases hel
  | some c =>
    obtain ⟨plat, plon⟩ := c
    rw [elementRecord_some d latitude longitude el plat plon hext] at hel
    exact ⟨_, _, _, (Option.some_inj.mp hel).symm⟩

end NearbyPlaces

namespace NearbyPlaces

/-- **C4**.  In `search_nearby_pet_friendly_food` (either strict mode —
`strict` only changes the query string), the records produced from the
raw elements are deduplicated by the `(name or "", address or "")` key
exactly as the spec words it: the record of the first element yielding a
key wins, all later records with the same key are dropped
(`keepFirstByKey`); consequently the final output never contains two
records with the same `(name, address)` pair. -/
theorem food_dedup_first_wins (d : DistFn) (latitude longitude : ℚ)
    (radius_m top_n : Int) (strict : Bool) (elements : List Element) :
    foodRecords d latitude longitude elements =
      keepFirstByKey specKey (rawRecords d latitude longitude elements) ∧
    List.Pairwise (fun a b => specKey a ≠ specKey b)
      (search_nearby_pet_friendly_food d latitude longitude radius_m top_n strict elements) := by
  refine ⟨foodRecords_eq d latitude longitude elements, ?_⟩
  have hp : List.Pairwise (fun a b => specKey a ≠ specKey b)
      (foodRecords d latitude longitude elements) := by
    rw [foodRecords_eq]
    exact keepFirstByKey_pairwise specKey _
  have hperm : List.Perm (sortByDist (foodRecords d latitude longitude elements))
      (foodRecords d latitude longitude elements) := List.perm_insertionSort _ _
  have hp2 := (List.Perm.pairwise_iff (fun h e => h e.symm) hperm).mpr hp
  show List.Pairwise (fun a b => specKey a ≠ specKey b)
    (truncTop top_n (sortByDist (foodRecords d latitude longitude elements)))
  exact List.Pairwise.sublist (List.take_sublist _ _) hp2

/-- **C5**.  For every response and every `top_n`, each search function
returns the record list sorted non-decreasingly in `distance_m` and
truncated to the first `max(0, top_n)` records; `top_n = 0` yields the
empty list regardless of how many records were produced. -/
theorem search_results_sorted_truncated (d : DistFn) (latitude longitude : ℚ)
    (radius_m top_n : Int) (strict : Bool) (elements : List Element) :
    (List.Sorted (fun a b => recDist a ≤ recDist b)
        (search_nearby_veterinary d latitude longitude radius_m top_n elements) ∧
      search_nearby_veterinary d latitude longitude radius_m top_n elements =
        (sortByDist (rawRecords d latitude longitude elements)).take (max 0 top_n).toNat ∧
      (top_n = 0 →
        search_nearby_veterinary d latitude longitude radius_m top_n elements = [])) ∧
    (List.Sorted (fun a b => recDist a ≤ recDist b)
        (search_nearby_pet_friendly_food d latitude longitude radius_m top_n strict
          elements) ∧
      search_nearby_pet_friendly_food d latitude longitude radius_m top_n strict elements =
        (sortByDist (foodRecords d latitude longitude elements)).take (max 0 top_n).toNat ∧
      (top_n = 0 →
        search_nearby_pet_friendly_food d latitude longitude radius_m top_n strict
          elements = [])) := by
  refine ⟨⟨?_, rfl, ?_⟩, ?_, rfl, ?_⟩
  · exact List.Pairwise.sublist (List.take_sublist _ _)
      (sortByDist_sorted (rawRecords d latitude longitude elements))
  · intro h; subst h; rfl
  · exact List.Pairwise.sublist (List.take_sublist _ _)
      (sortByDist_sorted (foodRecords d latitude longitude elements))
  · intro h; subst h; rfl

/-- **C5** witness: at a concrete response with two records and
`top_n = 0`, the veterinary search returns the empty list. -/
theorem search_results_sorted_truncated_witness :
    search_nearby_veterinary d1 0 0 1500 0 [el2, el0] = [] :=
  (search_results_sorted_truncated d1 0 0 1500 0 true [el2, el0]).1.2.2 rfl

/-- **C6**.  Every record returned by either search function is built by
`_to_output_record`, hence has exactly the four keys `name`, `address`,
`rating`, `distance_m` in that order, and its `rating` value is `null`. -/
theorem output_record_shape (d : DistFn) (latitude longitude : ℚ)
    (radius_m top_n : Int) (strict : Bool) (elements : List Element) :
    (∀ r ∈ search_nearby_veterinary d latitude longitude radius_m top_n elements,
        recKeys r = ["name", "address", "rating", "distance_m"] ∧
        r.lookup "rating" = some Value.null) ∧
    (∀ r ∈ search_nearby_pet_friendly_food d latitude longitude radius_m top_n strict
        elements,
        recKeys r = ["name", "address", "rating", "distance_m"] ∧
        r.lookup "rating" = some Value.null) := by
  constructor
  · intro r hr
    have hr2 : r ∈ truncTop top_n
        (sortByDist (rawRecords d latitude longitude elements)) := hr
    have hraw := mem_truncTop_sortByDist hr2
    obtain ⟨n, a, dd, rfl⟩ := mem_rawRecords_shape d latitude longitude elements hraw
    exact ⟨recKeys_to_output n a dd, lookup_rating_to_output n a dd⟩
  · intro r hr
    have hr2 : r ∈ truncTop top_n
        (sortByDist (foodRecords d latitude longitude elements)) := hr
    have hfood := mem_truncTop_sortByDist hr2
    rw [foodRecords_eq] at hfood
    have hraw := (keepFirstByKey_sublist specKey _).subset hfood
    obtain ⟨n, a, dd, rfl⟩ := mem_rawRecords_shape d latitude longitude elements hraw
    exact ⟨recKeys_to_output n a dd, lookup_rating_to_output n a dd⟩

/-- **C6** witness: the concrete record produced for `el0` in a concrete
veterinary search has exactly the four keys and a null rating. -/
theorem output_record_shape_witness :
    recKeys (_to_output_record (some "A") none 1) =
      ["name", "address", "rating", "distance_m"] ∧
    (_to_output_record (some "A") none 1).lookup "rating" = some Value.null :=
  (output_record_shape d1 0 0 1500 20 true [el2, el0]).1
    (_to_output_record (some "A") none 1) (by decide)

/-- **C7**.  `search_nearby` fails with the `ValueError` (InvalidArgument)
for every mode whose normalization is not a recognized mode — the result
is the error for EVERY distance oracle and element list, i.e. it is
produced by the dispatcher alone, before any HTTP request or retry. -/
theorem search_nearby_invalid_mode (d : DistFn) (latitude longitude : ℚ)
    (radius_m top_n : Int) (strict : Bool) (mode : Option String)
    (elements : List Element)
    (h : pyLower (pyStrip (mode.getD "")) ∉ "veterinary" :: foodModes) :
    search_nearby d latitude longitude radius_m top_n strict mode elements =
      .error .invalidMode := by
  simp only [List.mem_cons, not_or] at h
  simp only [search_nearby]
  rw [if_neg h.1, if_neg h.2]

/-- **C7** witness: `mode = "invalid"` yields the InvalidArgument error
at a concrete input. -/
theorem search_nearby_invalid_mode_witness :
    search_nearby d0 0 0 1500 20 true (some "invalid") [el0] = .error .invalidMode :=
  search_nearby_invalid_mode d0 0 0 1500 20 true (some "invalid") [el0] (by decide)

/-- **C8**.  `_haversine_m(p, p) = 0` for every point `p`: the
great-circle distance from any point to itself is exactly zero (in the
real-valued idealization of the float computation). -/
theorem haversine_self_eq_zero (lat lon : ℝ) : _haversine_m lat lon lat lon = 0 := by
  simp [_haversine_m]

/-- **C9**.  The legacy adapter forwards to `search_nearby_veterinary`
with `radius_m := radius` and the same `top_n`, for EVERY value of the
discarded `api_key` and `language` parameters: it adds no behavior
beyond parameter renaming. -/
theorem legacy_adapter_forwards (api_key : Option String) (language : Option String)
    (d : DistFn) (latitude longitude : ℚ) (radius top_n : Int)
    (elements : List Element) :
    search_nearby_veterinary_legacy api_key d latitude longitude radius language top_n
        elements =
      search_nearby_veterinary d latitude longitude radius top_n elements := rfl

/-- **C10**.  `search_nearby` strips and lowercases the mode before
matching: `"  Pet_Food "` and `"FOOD"` route to the pet-friendly-food
search exactly like the documented `"pet_friendly_food"`, `" Veterinary "`
routes to the veterinary search, and a `None` or empty mode is
unrecognized and yields the InvalidArgument error. -/
theorem search_nearby_mode_normalization (d : DistFn) (latitude longitude : ℚ)
    (radius_m top_n : Int) (strict : Bool) (elements : List Element) :
    search_nearby d latitude longitude radius_m top_n strict (some "  Pet_Food ")
        elements =
      .ok (search_nearby_pet_friendly_food d latitude longitude radius_m top_n strict
        elements) ∧
    search_nearby d latitude longitude radius_m top_n strict (some "FOOD") elements =
      .ok (search_nearby_pet_friendly_food d latitude longitude radius_m top_n strict
        elements) ∧
    search_nearby d latitude longitude radius_m top_n strict (some "pet_friendly_food")
        elements =
      .ok (search_nearby_pet_friendly_food d latitude longitude radius_m top_n strict
        elements) ∧
    search_nearby d latitude longitude radius_m top_n strict (some " Veterinary ")
        elements =
      .ok (search_nearby_veterinary d latitude longitude radius_m top_n elements) ∧
    search_nearby d latitude longitude radius_m top_n strict none elements =
      .error .invalidMode ∧
    search_nearby d latitude longitude radius_m top_n strict (some "") elements =
      .error .invalidMode :=
  ⟨rfl, rfl, rfl, rfl, rfl, rfl⟩

end NearbyPlaces
